import Mathlib

/-!
Shallow embedding of the portfolio report generator (`generate.py`, v_3.2).

Modelling conventions:
* Timestamps are integers counting days (`Int`); `datetime.now()` becomes an
  explicit `now : Int` parameter.  The daily price indexes used by the program
  have day granularity, so `timedelta(days=k)` is subtraction of `k`.
* Prices and quantities are rationals (`ℚ`).  A missing/NaN close is `none` in
  `Option ℚ`; `pd.isna` checks become matches on the option.
* A pandas `Series` of closes is a `List (Int × Option ℚ)` of (date, close)
  pairs; a value of `none` at a call site models Python `None`.
* Fallible provider calls (network, exceptions) are already-resolved `Option`
  inputs: `none` covers both "the call raised" and "no data", exactly the two
  cases the corresponding `try/except`/emptiness checks collapse together.
-/

namespace Portfolio

/-- A point of a close-price series: (date, close); close `none` models NaN. -/
abbrev SeriesPt := Int × Option ℚ

/-- Default element handed to positional accessors; it is only ever used at
indices proved in range, where it is irrelevant. -/
def dummyPt : SeriesPt := (0, none)

/-- Date-ascending comparison used by `s.sort_index()`. -/
def byDate (p q : SeriesPt) : Prop := p.1 ≤ q.1

instance : DecidableRel byDate := fun p q => inferInstanceAs (Decidable (p.1 ≤ q.1))

instance : IsTotal SeriesPt byDate := ⟨fun a b => le_total a.1 b.1⟩

instance : IsTrans SeriesPt byDate := ⟨fun _ _ _ hab hbc => le_trans hab hbc⟩

/-- `s.sort_index()` (generate.py line 105): sort the series ascending by date.
The program's series have no duplicate dates, so stability is irrelevant. -/
def sort_index (s : List SeriesPt) : List SeriesPt := s.insertionSort byDate

/-- `s.index.searchsorted(t)` (lines 110 and 223): the left insertion point of
`t` in the ascending date index, i.e. the number of dates strictly below `t`.
For an ascending index this is exactly numpy's side = left result. -/
def searchsorted (s : List SeriesPt) (t : Int) : Nat :=
  s.countP (fun p => decide (p.1 < t))

/-- `target_dt = datetime.now() - timedelta(days=int(months * 30.5))`
(lines 109 and 207).  `int (months * 30.5) = (months * 61) / 2` for every
natural `months` (Python `int` truncates toward zero). -/
def targetDate (now : Int) (months : Nat) : Int :=
  now - ((months * 61) / 2 : Nat)

/-- The reference index: `searchsorted` clamped to the last element
(lines 110-112 and 223-225). -/
def refIndex (s : List SeriesPt) (t : Int) : Nat :=
  if s.length ≤ searchsorted s t then s.length - 1 else searchsorted s t

/-- `days_span = (s.index[-1] - s.index[0]).days` (line 114). -/
def spanDays (s : List SeriesPt) : Int :=
  (s.getLastD dummyPt).1 - (s.headD dummyPt).1

/-- `_window_return_from_series(s, months, min_days_required)`
(lines 102-117).  The `s is None` branch is the `none` case of the option. -/
def window_return_from_series (now : Int) (s? : Option (List SeriesPt))
    (months minDays : Nat) : Option ℚ :=
  match s? with
  | none => none
  | some s0 =>
    if s0.isEmpty then none
    else
      let s := sort_index s0
      match (s.getLastD dummyPt).2 with
      | none => none          -- pd.isna(last)
      | some last =>
        let i := refIndex s (targetDate now months)
        match (s.getD i dummyPt).2 with
        | none => none        -- pd.isna(ref)
        | some ref =>
          if spanDays s < (minDays : Int) ∨ ref = 0 then none
          else some ((last - ref) / ref)

/-- Render an integer number of tenths as a fixed-point string with one
decimal place ("123" ↦ "12.3"). -/
def fmtTenths (n : ℤ) : String :=
  (if n < 0 then "-" else "") ++ toString (n.natAbs / 10) ++ "." ++ toString (n.natAbs % 10)

/-- `f-string {r*100:.1f}` — the value as a percentage with one decimal place.
`round` is round-half-up where Python's float formatting is round-half-even;
the two agree except on exact ties, which none of the claims touch, and the
sign of a negative that rounds to zero is not modelled. -/
def pctStr (r : ℚ) : String := fmtTenths (round (r * 1000)) ++ "%"

/-- `to_str` (line 125), also the `ActualPerf` lambda of line 189: absent
renders as the empty string, a present value as a one-decimal percentage. -/
def to_str (r : Option ℚ) : String :=
  match r with
  | none => ""
  | some v => pctStr v

/-- `fmt_badge_val` (lines 262-263), and the `badge`/`perf_span` absent cases
of the HTML renderer: absent renders as a dash. -/
def fmt_badge_val (r : Option ℚ) : String :=
  match r with
  | none => "-"
  | some v => pctStr v

/-- The console's `r["Perf1M"] or "-"` (lines 274-275): an empty string is
displayed as a dash. -/
def orDash (s : String) : String := if s = "" then "-" else s

/-! ## Historical data frames and close-series extraction -/

/-- A downloaded history frame, in one of the two layouts `_get_close_series`
supports (lines 79-100):
* `flat`: single-level columns, each a label with its own (date, value) column;
* `nested`: MultiIndex columns — a first level of field labels, each holding
  per-symbol rows `(date, values-for-each-symbol)`. -/
inductive DF where
  | flat (cols : List (String × List SeriesPt))
  | nested (fields : List (String × List (Int × List (Option ℚ))))
deriving DecidableEq

/-- `hist.empty`: the frame has no rows. -/
def DF.isEmptyDF : DF → Bool
  | .flat cols => cols.all (fun c => c.2.isEmpty)
  | .nested fields => fields.all (fun f => f.2.isEmpty)

/-- The label preference order of lines 85 and 96. -/
def closeLabels : List String := ["Close", "Adj Close", "close", "adjclose"]

/-- `hist[label]` membership and selection: the first column whose label
matches. -/
def lookupCol {α : Type} (cols : List (String × α)) (label : String) : Option α :=
  (cols.find? (fun c => c.1 == label)).map (fun c => c.2)

/-- A MultiIndex row survives `DataFrame.dropna()` when no symbol value in it
is missing. -/
def rowAllSome (row : Int × List (Option ℚ)) : Bool := row.2.all (fun v => v.isSome)

/-- The MultiIndex loop of lines 84-94, with Python `continue` as recursion on
the remaining labels.  Selecting a first-level label of a MultiIndex always
yields a DataFrame, so the `isinstance(df, pd.Series)` branch of line 93
(which would dereference the unbound name `s`) is unreachable and not
modelled.  When this loop falls through, the single-level loop of lines 96-99
can only rediscover a label this loop already tried and found empty after
`dropna` (for a MultiIndex, `label in cols` matches the first level), so the
fall-through result is `none`. -/
def nestedLoop (fields : List (String × List (Int × List (Option ℚ)))) :
    List String → Option (List SeriesPt)
  | [] => none
  | label :: rest =>
    match lookupCol fields label with
    | none => nestedLoop fields rest
    | some rows =>
      let dfd := rows.filter rowAllSome        -- hist[label].dropna()
      if dfd.isEmpty then nestedLoop fields rest   -- continue
      else
        -- df.iloc[:, 0].dropna()
        let s := (dfd.map (fun row => (row.1, row.2.headD none))).filter
          (fun p => p.2.isSome)
        if s.isEmpty then none else some s

/-- The single-level loop of lines 96-99: the first matching label decides the
result — its column after `dropna()`, or `None` when that is empty (no
`continue` on this path). -/
def flatLoop (cols : List (String × List SeriesPt)) :
    List String → Option (List SeriesPt)
  | [] => none
  | label :: rest =>
    match lookupCol cols label with
    | none => flatLoop cols rest
    | some vals =>
      let s := vals.filter (fun p => p.2.isSome)   -- hist[label].dropna()
      if s.isEmpty then none else some s

/-- `_get_close_series(hist)` (lines 79-100). -/
def get_close_series : Option DF → Option (List SeriesPt)
  | none => none
  | some hist =>
    if hist.isEmptyDF then none
    else
      match hist with
      | .nested fields => nestedLoop fields closeLabels
      | .flat cols => flatLoop cols closeLabels

/-- `compute_individual_perf_from_hist(hist)` (lines 119-126). -/
def compute_individual_perf_from_hist (now : Int) (hist : Option DF) :
    String × String × String × Option ℚ × Option ℚ × Option ℚ :=
  let s := get_close_series hist
  let r1 := window_return_from_series now s 1 20
  let r6 := window_return_from_series now s 6 120
  let r12 := window_return_from_series now s 12 250
  (to_str r1, to_str r6, to_str r12, r1, r6, r12)

/-! ## Current-price resolution and FX -/

/-- The provider-visible data behind one `yf.Ticker`, with each fallible
access already resolved to an option: `none` stands equally for "the call
raised" and "field missing / None", the two cases the code treats alike.
History fields hold the `Close` column; `some []` is an empty frame or a
frame without a `Close` column.  (A NaN close, which line 41/48 would return
verbatim, is outside this rational model.) -/
structure Provider where
  fast_info_last_price : Option ℚ
  hist_1d : Option (List ℚ)
  hist_5d : Option (List ℚ)
  info_regularMarketPrice : Option ℚ
  info_currentPrice : Option ℚ
  info_previousClose : Option ℚ

/-- Tier 1 (lines 31-36): `fast_info.last_price`, skipped when falsy — a
last price of `0.0` does not count as a success. -/
def tier1 (p : Provider) : Option ℚ :=
  match p.fast_info_last_price with
  | some v => if v = 0 then none else some v
  | none => none

/-- Tier 2 (lines 38-43): last close of the 1-day / 1-minute history. -/
def tier2 (p : Provider) : Option ℚ :=
  match p.hist_1d with
  | some closes => closes.getLast?
  | none => none

/-- Tier 3 (lines 45-50): last close of the 5-day / 1-day history. -/
def tier3 (p : Provider) : Option ℚ :=
  match p.hist_5d with
  | some closes => closes.getLast?
  | none => none

/-- Tier 4 (lines 52-59): the info dict's fields in the order
regularMarketPrice, currentPrice, previousClose; the first non-None value is
returned, zero included (`is not None`, no truthiness test here). -/
def tier4 (p : Provider) : Option ℚ :=
  match p.info_regularMarketPrice with
  | some v => some v
  | none =>
    match p.info_currentPrice with
    | some v => some v
    | none => p.info_previousClose

/-- `get_price_native(ticker)` (lines 28-60): the four tiers as sequential
early returns; `return None` when every tier falls through. -/
def get_price_native (p : Provider) : Option ℚ :=
  match tier1 p with
  | some v => some v
  | none =>
    match tier2 p with
    | some v => some v
    | none =>
      match tier3 p with
      | some v => some v
      | none => tier4 p

/-- `get_aud_per_usd()` (lines 62-70).  The argument is the resolved download:
`none` for an exception, `some closes` for the frame's Close column (empty
when the frame was empty or lacked the column).  `if usd_per_aud` is Python
truthiness: a zero last close falls back to the 1.5 default instead of being
inverted. -/
def get_aud_per_usd (fx : Option (List ℚ)) : ℚ :=
  match fx with
  | some closes =>
    match closes.getLast? with
    | some usd_per_aud => if usd_per_aud = 0 then 1.5 else 1 / usd_per_aud
    | none => 1.5
  | none => 1.5

/-! ## Currency conversion -/

/-- Line 161: `px * aud_per_usd if mkt == "US" else px`. -/
def price_to_aud (aud_per_usd : ℚ) (px : ℚ) (mkt : String) : ℚ :=
  if mkt = "US" then px * aud_per_usd else px

/-- `cost_to_aud(row)` (lines 180-186): absent average cost stays absent
(`pd.NA`), a US-market cost is multiplied by the rate, others pass through. -/
def cost_to_aud (aud_per_usd : ℚ) (mkt : String) (avgCost : Option ℚ) : Option ℚ :=
  match avgCost with
  | none => none
  | some c => some (if mkt = "US" then c * aud_per_usd else c)

/-! ## Portfolio aggregation -/

/-- A row of the `shown` frame as `agg_with_start_weights` reads it
(lines 209-234): ticker, normalized ticker (empty string is the falsy
`if not t_yf` case), market tag and quantity. -/
structure AggRow where
  ticker : String
  tickerYF : String
  market : String
  quantity : ℚ
deriving DecidableEq

/-- One iteration of the `agg_with_start_weights` loop body (lines 209-239):
the contribution `(mv_start, ret)` of a row, or `none` for each `continue`.
`ret_dict` and `hist_cache` are the dictionaries of the enclosing `main`,
read through `.get` (absent key ↦ `none`). -/
def agg_contrib (aud_per_usd : ℚ) (now : Int) (months : Nat)
    (ret_dict : String → Option ℚ) (hist_cache : String → Option DF)
    (r : AggRow) : Option (ℚ × ℚ) :=
  match ret_dict r.ticker with
  | none => none
  | some ret =>
    if r.tickerYF = "" then none
    else
      match get_close_series (hist_cache r.tickerYF) with
      | none => none
      | some s =>
        if s.isEmpty then none
        else
          let i := refIndex s (targetDate now months)
          match (s.getD i dummyPt).2 with
          | none => none                         -- pd.isna(p_start)
          | some p_start =>
            if p_start = 0 then none
            else
              let p_start_aud := if r.market = "US" then p_start * aud_per_usd else p_start
              let mv_start := r.quantity * p_start_aud
              if mv_start ≤ 0 then none else some (mv_start, ret)

/-- The `usable` list accumulated by the loop of lines 209-239: the
contributions `(mv_start, ret)` of the rows that reach `usable.append`, in
row order. -/
def usable (aud_per_usd : ℚ) (now : Int) (rows : List AggRow)
    (ret_dict : String → Option ℚ) (hist_cache : String → Option DF)
    (months : Nat) : List (ℚ × ℚ) :=
  rows.filterMap (agg_contrib aud_per_usd now months ret_dict hist_cache)

/-- `total_start_mv` (lines 206, 239): the sum of the contributing start
market values. -/
def total_start_mv (aud_per_usd : ℚ) (now : Int) (rows : List AggRow)
    (ret_dict : String → Option ℚ) (hist_cache : String → Option DF)
    (months : Nat) : ℚ :=
  ((usable aud_per_usd now rows ret_dict hist_cache months).map (fun p => p.1)).sum

/-- `agg_with_start_weights(shown_df, ret_dict, months)` (lines 203-243). -/
def agg_with_start_weights (aud_per_usd : ℚ) (now : Int)
    (rows : List AggRow) (ret_dict : String → Option ℚ)
    (hist_cache : String → Option DF) (months : Nat) : Option ℚ :=
  let u := usable aud_per_usd now rows ret_dict hist_cache months
  let total := total_start_mv aud_per_usd now rows ret_dict hist_cache months
  if u.isEmpty ∨ total ≤ 0 then none
  else some ((u.map (fun p => p.1 * p.2)).sum / total)

/-- A row of the `shown` frame as the since-inception aggregate reads it
(lines 249-258): every shown row has a resolved `PriceAUD`; `avgCost` is the
native-currency average cost, `none` when the AvgCost cell is absent or
non-numeric (or the column missing entirely). -/
structure ShownRow where
  market : String
  quantity : ℚ
  priceAUD : ℚ
  avgCost : Option ℚ
deriving DecidableEq

/-- `MarketValueAUD` (line 171). -/
def market_value_aud (r : ShownRow) : ℚ := r.quantity * r.priceAUD

/-- `AvgCostAUD` (line 187): the market-aware conversion of the average cost. -/
def avg_cost_aud (aud_per_usd : ℚ) (r : ShownRow) : Option ℚ :=
  cost_to_aud aud_per_usd r.market r.avgCost

/-- `have_cost = shown.dropna(subset=["AvgCostAUD"])` (line 251). -/
def have_cost (aud_per_usd : ℚ) (rows : List ShownRow) : List ShownRow :=
  rows.filter (fun r => (avg_cost_aud aud_per_usd r).isSome)

/-- `total_cost_aud = (AvgCostAUD * Quantity).sum()` over `have_cost`
(lines 255-256). -/
def total_cost_aud (aud_per_usd : ℚ) (rows : List ShownRow) : ℚ :=
  ((have_cost aud_per_usd rows).map
    (fun r => ((avg_cost_aud aud_per_usd r).getD 0) * r.quantity)).sum

/-- `total_mv_with_cost = have_cost["MarketValueAUD"].sum()` (line 257). -/
def total_mv_with_cost (aud_per_usd : ℚ) (rows : List ShownRow) : ℚ :=
  ((have_cost aud_per_usd rows).map market_value_aud).sum

/-- The since-inception portfolio aggregate `port_actual` (lines 249-258):
restrict to rows with a present `AvgCostAUD`, total their cost
`AvgCostAUD * Quantity` and market value, and return the relative gain when
the total cost is positive (`if total_cost_aud and total_cost_aud > 0`,
Python truthiness plus positivity, is `0 < total_cost_aud` over ℚ).  An
empty `shown` gives an empty restriction, so the `shown.empty` guard of
line 250 needs no separate case. -/
def port_actual (aud_per_usd : ℚ) (rows : List ShownRow) : Option ℚ :=
  if (have_cost aud_per_usd rows).isEmpty then none
  else if 0 < total_cost_aud aud_per_usd rows then
    some ((total_mv_with_cost aud_per_usd rows - total_cost_aud aud_per_usd rows)
      / total_cost_aud aud_per_usd rows)
  else none

/-! ## Facts about the sorted series and the reference-index search -/

theorem sorted_sort_index (s : List SeriesPt) : List.Sorted byDate (sort_index s) :=
  List.sorted_insertionSort byDate s

theorem length_sort_index (s : List SeriesPt) : (sort_index s).length = s.length :=
  (List.perm_insertionSort byDate s).length_eq

theorem mem_sort_index {s : List SeriesPt} {p : SeriesPt} : p ∈ sort_index s ↔ p ∈ s :=
  List.mem_insertionSort byDate

theorem searchsorted_le_length (s : List SeriesPt) (t : Int) :
    searchsorted s t ≤ s.length :=
  List.countP_le_length _

/-- Every index strictly below the left insertion point of `t` holds a date
strictly below `t`, in an ascending series. -/
theorem getD_lt_of_lt_searchsorted (t : Int) :
    ∀ s : List SeriesPt, List.Sorted byDate s →
      ∀ j, j < searchsorted s t → (s.getD j dummyPt).1 < t := by
  intro s
  induction s with
  | nil => intro _ j hj; simp [searchsorted] at hj
  | cons p rest ih =>
    intro hs j hj
    obtain ⟨hp, hrest⟩ := List.sorted_cons.mp hs
    by_cases hpt : p.1 < t
    · rw [searchsorted, List.countP_cons_of_pos _ _ (by simpa using hpt)] at hj
      cases j with
      | zero => simpa using hpt
      | succ k =>
        rw [List.getD_cons_succ]
        refine ih hrest k ?_
        rw [searchsorted]
        omega
    · rw [searchsorted, List.countP_cons_of_neg _ _ (by simpa using hpt)] at hj
      have hzero : rest.countP (fun q => decide (q.1 < t)) = 0 := by
        refine List.countP_eq_zero.mpr ?_
        intro q hq
        have : p.1 ≤ q.1 := hp q hq
        simp only [decide_eq_true_eq]
        omega
      rw [hzero] at hj
      omega

/-- The date at the left insertion point itself is at or after `t`, whenever
that index is in range, in an ascending series. -/
theorem le_getD_searchsorted (t : Int) :
    ∀ s : List SeriesPt, List.Sorted byDate s →
      searchsorted s t < s.length → t ≤ (s.getD (searchsorted s t) dummyPt).1 := by
  intro s
  induction s with
  | nil => intro _ h; simp [searchsorted] at h
  | cons p rest ih =>
    intro hs hlen
    obtain ⟨hp, hrest⟩ := List.sorted_cons.mp hs
    by_cases hpt : p.1 < t
    · rw [searchsorted, List.countP_cons_of_pos _ _ (by simpa using hpt)] at hlen ⊢
      rw [List.getD_cons_succ]
      refine ih hrest ?_
      rw [searchsorted]
      simp only [List.length_cons] at hlen
      omega
    · have hzero : (p :: rest).countP (fun q => decide (q.1 < t)) = 0 := by
        refine List.countP_eq_zero.mpr ?_
        intro q hq
        rcases List.mem_cons.mp hq with hq | hq
        · subst hq; simpa using hpt
        · have : p.1 ≤ q.1 := hp q hq
          simp only [decide_eq_true_eq]
          omega
      rw [searchsorted, hzero]
      simpa using hpt

/-- When some date reaches `t`, the left insertion point is a real index. -/
theorem searchsorted_lt_length {s : List SeriesPt} {t : Int}
    (h : ∃ p ∈ s, t ≤ p.1) : searchsorted s t < s.length := by
  refine lt_of_le_of_ne (searchsorted_le_length s t) ?_
  intro heq
  obtain ⟨p, hmem, hle⟩ := h
  have := List.countP_eq_length.mp heq p hmem
  simp only [decide_eq_true_eq] at this
  omega

/-- When every date precedes `t`, the left insertion point is the length. -/
theorem searchsorted_eq_length {s : List SeriesPt} {t : Int}
    (h : ∀ p ∈ s, p.1 < t) : searchsorted s t = s.length := by
  refine List.countP_eq_length.mpr ?_
  intro p hp
  simpa using h p hp

/-- The positional accessor at `length - 1` is the last element. -/
theorem getD_length_sub_one (s : List SeriesPt) (h : s ≠ []) :
    s.getD (s.length - 1) dummyPt = s.getLastD dummyPt := by
  induction s with
  | nil => exact absurd rfl h
  | cons x rest ih =>
    cases rest with
    | nil => rfl
    | cons y tail =>
      have := ih (by simp)
      simpa [List.getD_cons_succ, List.getLastD_cons] using this

/-! ## Claim theorems -/

/-- C7: `convert(x, DOMESTIC) = x` and `convert(x, FOREIGN) = x × rate` for
every amount and rate — the identity applies to every non-US market tag — and
current-price conversion and cost-basis conversion follow the same rule. -/
theorem c7_currency_conversion (rate x : ℚ) :
    price_to_aud rate x "ASX" = x ∧
    price_to_aud rate x "US" = x * rate ∧
    cost_to_aud rate "ASX" (some x) = some x ∧
    cost_to_aud rate "US" (some x) = some (x * rate) ∧
    (∀ mkt : String, mkt ≠ "US" →
      price_to_aud rate x mkt = x ∧ cost_to_aud rate mkt (some x) = some x) ∧
    (∀ mkt : String, cost_to_aud rate mkt (some x) = some (price_to_aud rate x mkt)) := by
  refine ⟨?_, ?_, ?_, ?_, fun mkt hm => ⟨?_, ?_⟩, fun mkt => ?_⟩ <;>
    simp [price_to_aud, cost_to_aud, *]

theorem c7_currency_conversion_witness :
    price_to_aud (3/2) 10 "ASX" = 10 ∧ price_to_aud (3/2) 10 "US" = 15 ∧
    cost_to_aud (3/2) "NZE" (some 10) = some 10 := by
  have h := c7_currency_conversion (3/2) 10
  refine ⟨h.1, ?_, (h.2.2.2.2.1 "NZE" (by decide)).2⟩
  rw [h.2.1]; norm_num

/-- C8: an absent return renders as the empty string (per-holding cells and
since-inception cell) or a dash (portfolio badges, console cells), never the
numeral zero, while a computed 0% return renders as "0.0%", so the two are
distinguishable. -/
theorem c8_absent_never_zero :
    to_str none = "" ∧ fmt_badge_val none = "-" ∧ orDash (to_str none) = "-" ∧
    to_str (some 0) = "0.0%" ∧ fmt_badge_val (some 0) = "0.0%" ∧
    orDash (to_str (some 0)) = "0.0%" ∧
    to_str none ≠ "0" ∧ fmt_badge_val none ≠ "0" ∧ orDash (to_str none) ≠ "0" ∧
    to_str (some 0) ≠ to_str none ∧ fmt_badge_val (some 0) ≠ fmt_badge_val none := by
  have hr : round ((0 : ℚ) * 1000) = 0 := by norm_num
  have hz : to_str (some 0) = "0.0%" := by
    simp only [to_str, pctStr, fmtTenths, hr]
    rfl
  have hb : fmt_badge_val (some 0) = "0.0%" := by
    simp only [fmt_badge_val, pctStr, fmtTenths, hr]
    rfl
  refine ⟨rfl, rfl, rfl, hz, hb, ?_, by decide, by decide, by decide, ?_, ?_⟩
  · rw [hz]; rfl
  · rw [hz]; decide
  · rw [hb]; decide

/-- C10: the FX resolver is total and never inverts a zero rate: a failed
call, an empty download, and a zero last close all yield the fixed default
1.5; only a nonzero last close is inverted. -/
theorem c10_fx_total (fx : Option (List ℚ)) :
    (fx = none → get_aud_per_usd fx = 1.5) ∧
    (fx = some [] → get_aud_per_usd fx = 1.5) ∧
    (∀ closes, fx = some closes → closes.getLast? = some 0 →
      get_aud_per_usd fx = 1.5) ∧
    (∀ closes u, fx = some closes → closes.getLast? = some u → u ≠ 0 →
      get_aud_per_usd fx = 1 / u) := by
  refine ⟨fun h => ?_, fun h => ?_, fun closes h hl => ?_, fun closes u h hl hu => ?_⟩
  · subst h; rfl
  · subst h; rfl
  · subst h; simp [get_aud_per_usd, hl]
  · subst h; simp [get_aud_per_usd, hl, hu]

theorem c10_fx_total_witness :
    get_aud_per_usd (some [(7 : ℚ)/10, 0]) = 1.5 ∧
    get_aud_per_usd none = 1.5 ∧
    get_aud_per_usd (some [(4 : ℚ)/5]) = 5/4 := by
  refine ⟨(c10_fx_total (some [(7 : ℚ)/10, 0])).2.2.1 [(7 : ℚ)/10, 0] rfl rfl,
    (c10_fx_total none).1 rfl, ?_⟩
  have h := (c10_fx_total (some [(4 : ℚ)/5])).2.2.2 [(4 : ℚ)/5] (4/5) rfl rfl (by norm_num)
  rw [h]; norm_num

/-- C5: the current-price resolver consults its four tiers in the stated
order, each exactly once, returns the first tier's value, and returns `none`
exactly when all four tiers fail; within tier 4 the info fields are checked
as regular-market price, then current price, then previous close. -/
theorem c5_price_tier_order (p : Provider) :
    (∀ v, tier1 p = some v → get_price_native p = some v) ∧
    (tier1 p = none → ∀ v, tier2 p = some v → get_price_native p = some v) ∧
    (tier1 p = none → tier2 p = none → ∀ v, tier3 p = some v →
      get_price_native p = some v) ∧
    (tier1 p = none → tier2 p = none → tier3 p = none →
      get_price_native p = tier4 p) ∧
    (get_price_native p = none ↔
      tier1 p = none ∧ tier2 p = none ∧ tier3 p = none ∧ tier4 p = none) ∧
    (∀ v, p.info_regularMarketPrice = some v → tier4 p = some v) ∧
    (p.info_regularMarketPrice = none → ∀ v, p.info_currentPrice = some v →
      tier4 p = some v) ∧
    (p.info_regularMarketPrice = none → p.info_currentPrice = none →
      tier4 p = p.info_previousClose) := by
  refine ⟨fun v h => ?_, fun h1 v h => ?_, fun h1 h2 v h => ?_, fun h1 h2 h3 => ?_,
    ?_, fun v h => ?_, fun h1 v h => ?_, fun h1 h2 => ?_⟩
  · simp [get_price_native, h]
  · simp [get_price_native, h1, h]
  · simp [get_price_native, h1, h2, h]
  · simp [get_price_native, h1, h2, h3]
  · cases h1 : tier1 p <;> cases h2 : tier2 p <;> cases h3 : tier3 p <;>
      simp [get_price_native, h1, h2, h3]
  · simp [tier4, h]
  · simp [tier4, h1, h]
  · simp [tier4, h1, h2]

theorem c5_price_tier_order_witness :
    get_price_native ⟨some 0, none, some [7], some 3, none, none⟩ = some 7 ∧
    get_price_native ⟨none, none, none, none, none, some 9⟩ = some 9 ∧
    get_price_native ⟨none, some [], none, none, none, none⟩ = none := by
  refine ⟨(c5_price_tier_order _).2.2.1 (by decide) (by decide) 7 (by decide), ?_, ?_⟩
  · have h := c5_price_tier_order ⟨none, none, none, none, none, some 9⟩
    rw [h.2.2.2.1 (by decide) (by decide) (by decide)]
    exact h.2.2.2.2.2.2.2 (by decide) (by decide)
  · exact (c5_price_tier_order _).2.2.2.2.1.mpr (by decide)

/-- C3: the since-inception portfolio return is
`(Σ currentMarketValue − Σ costBasisValue) / Σ costBasisValue` over exactly
the rows whose cost basis is known (market-aware converted), is absent
exactly when that restricted set is empty or its total cost basis is not
positive, and is unchanged by adding a row with unknown AvgCost. -/
theorem c3_port_actual (aud : ℚ) (rows : List ShownRow) :
    (port_actual aud rows = none ↔
      have_cost aud rows = [] ∨ total_cost_aud aud rows ≤ 0) ∧
    (have_cost aud rows ≠ [] → 0 < total_cost_aud aud rows →
      port_actual aud rows =
        some ((total_mv_with_cost aud rows - total_cost_aud aud rows)
          / total_cost_aud aud rows)) ∧
    (∀ r : ShownRow, r.avgCost = none →
      port_actual aud (r :: rows) = port_actual aud rows) := by
  refine ⟨?_, fun hne hpos => ?_, fun r hr => ?_⟩
  · rw [port_actual]
    by_cases he : (have_cost aud rows).isEmpty
    · rw [if_pos he]
      simp [List.isEmpty_iff.mp he]
    · rw [if_neg he]
      have hne : have_cost aud rows ≠ [] := by simpa [List.isEmpty_iff] using he
      by_cases hc : 0 < total_cost_aud aud rows
      · rw [if_pos hc]
        simp [hne, not_le.mpr hc]
      · rw [if_neg hc]
        simp [hne, not_lt.mp hc]
  · rw [port_actual, if_neg (by simpa [List.isEmpty_iff] using hne), if_pos hpos]
  · have hfilter : have_cost aud (r :: rows) = have_cost aud rows := by
      simp [have_cost, List.filter_cons, avg_cost_aud, cost_to_aud, hr]
    rw [port_actual, port_actual, total_cost_aud, total_cost_aud,
      total_mv_with_cost, total_mv_with_cost, hfilter]

theorem c3_port_actual_witness :
    port_actual 2 [⟨"US", 1, 3, none⟩, ⟨"ASX", 2, 10, some 5⟩] = some 1 := by
  have hm : ¬(("ASX" : String) = "US") := by decide
  have h := c3_port_actual 2 [⟨"ASX", 2, 10, some 5⟩]
  have hcost : total_cost_aud 2 [⟨"ASX", 2, 10, some 5⟩] = 10 := by
    simp [total_cost_aud, have_cost, avg_cost_aud, cost_to_aud, hm]
    norm_num
  have hmv : total_mv_with_cost 2 [⟨"ASX", 2, 10, some 5⟩] = 20 := by
    simp [total_mv_with_cost, have_cost, avg_cost_aud, cost_to_aud, market_value_aud, hm]
    norm_num
  rw [h.2.2 ⟨"US", 1, 3, none⟩ rfl,
    h.2.1 (by simp [have_cost, avg_cost_aud, cost_to_aud, hm]) (by rw [hcost]; norm_num),
    hcost, hmv]
  norm_num

/-- Every contribution the aggregation loop keeps has a positive start
market value: the `mv_start <= 0` guard is the last filter before
`usable.append`. -/
theorem agg_contrib_pos (aud : ℚ) (now : Int) (months : Nat)
    (rd : String → Option ℚ) (hc : String → Option DF) (r : AggRow)
    (q : ℚ × ℚ) (h : agg_contrib aud now months rd hc r = some q) : 0 < q.1 := by
  unfold agg_contrib at h
  repeat any_goals split at h
  any_goals simp_all [not_le]
  repeat any_goals split at h
  any_goals simp_all [not_le]
  all_goals (rw [← h]; assumption)

theorem usable_pos (aud : ℚ) (now : Int) (rows : List AggRow)
    (rd : String → Option ℚ) (hc : String → Option DF) (months : Nat) :
    ∀ q ∈ usable aud now rows rd hc months, 0 < q.1 := by
  intro q hq
  obtain ⟨r, _, hr⟩ := List.mem_filterMap.mp hq
  exact agg_contrib_pos aud now months rd hc r q hr

/-- A nonempty contribution list makes the total start value positive. -/
theorem total_start_mv_pos (aud : ℚ) (now : Int) (rows : List AggRow)
    (rd : String → Option ℚ) (hc : String → Option DF) (months : Nat)
    (hne : usable aud now rows rd hc months ≠ []) :
    0 < total_start_mv aud now rows rd hc months := by
  refine List.sum_pos _ ?_ (by simpa using hne)
  intro x hx
  obtain ⟨q, hq, rfl⟩ := List.mem_map.mp hx
  exact usable_pos aud now rows rd hc months q hq

theorem sum_map_mul_const (U : List (ℚ × ℚ)) (r : ℚ) (h : ∀ q ∈ U, q.2 = r) :
    (U.map (fun p => p.1 * p.2)).sum = (U.map (fun p => p.1)).sum * r := by
  induction U with
  | nil => simp
  | cons a t ih =>
    simp only [List.map_cons, List.sum_cons]
    rw [ih (fun q hq => h q (List.mem_cons_of_mem a hq)), h a (List.mem_cons_self a t)]
    ring

/-- C2: the hypothetical portfolio return for a window is the
start-value-weighted average `Σ(mv_start × ret) / Σ mv_start` over the
contributing holdings, absent exactly when no holding contributes or the
total start value is not positive (which, since each kept weight is
positive, happens exactly when no holding contributes), and equals `r`
whenever every contributing holding has the same return `r`. -/
theorem c2_weighted_average (aud : ℚ) (now : Int) (rows : List AggRow)
    (rd : String → Option ℚ) (hc : String → Option DF) (months : Nat) :
    (agg_with_start_weights aud now rows rd hc months = none ↔
      usable aud now rows rd hc months = [] ∨
      total_start_mv aud now rows rd hc months ≤ 0) ∧
    (agg_with_start_weights aud now rows rd hc months = none ↔
      usable aud now rows rd hc months = []) ∧
    (usable aud now rows rd hc months ≠ [] →
      agg_with_start_weights aud now rows rd hc months =
        some (((usable aud now rows rd hc months).map (fun p => p.1 * p.2)).sum
          / total_start_mv aud now rows rd hc months)) ∧
    (∀ r : ℚ, (∀ q ∈ usable aud now rows rd hc months, q.2 = r) →
      usable aud now rows rd hc months ≠ [] →
      agg_with_start_weights aud now rows rd hc months = some r) := by
  have hformula : usable aud now rows rd hc months ≠ [] →
      agg_with_start_weights aud now rows rd hc months =
        some (((usable aud now rows rd hc months).map (fun p => p.1 * p.2)).sum
          / total_start_mv aud now rows rd hc months) := by
    intro hne
    have hpos := total_start_mv_pos aud now rows rd hc months hne
    rw [agg_with_start_weights,
      if_neg (by simp [List.isEmpty_iff, hne, not_le.mpr hpos])]
  refine ⟨?_, ?_, hformula, fun r hall hne => ?_⟩
  · rw [agg_with_start_weights]
    by_cases hne : usable aud now rows rd hc months = []
    · simp [hne, List.isEmpty_iff]
    · have hpos := total_start_mv_pos aud now rows rd hc months hne
      rw [if_neg (by simp [List.isEmpty_iff, hne, not_le.mpr hpos])]
      simp [hne, not_le.mpr hpos]
  · rw [agg_with_start_weights]
    by_cases hne : usable aud now rows rd hc months = []
    · simp [hne, List.isEmpty_iff]
    · have hpos := total_start_mv_pos aud now rows rd hc months hne
      rw [if_neg (by simp [List.isEmpty_iff, hne, not_le.mpr hpos])]
      simp [hne]
  · have hpos := total_start_mv_pos aud now rows rd hc months hne
    rw [hformula hne, sum_map_mul_const _ r hall]
    rw [show ((usable aud now rows rd hc months).map (fun p => p.1)).sum
        = total_start_mv aud now rows rd hc months from rfl]
    rw [mul_comm, mul_div_assoc, div_self hpos.ne', mul_one]

theorem c2_weighted_average_witness :
    agg_with_start_weights 2 120 [⟨"A", "A.AX", "ASX", 1⟩] (fun _ => some (1/10))
      (fun _ => some (DF.flat [("Close", [(0, some 4), (100, some 5)])])) 1
      = some (1/10) := by
  have hstep : agg_contrib 2 120 1 (fun _ => some (1/10))
      (fun _ => some (DF.flat [("Close", [(0, some 4), (100, some 5)])]))
      ⟨"A", "A.AX", "ASX", 1⟩
      = if (1 : ℚ) * 5 ≤ 0 then none else some ((1 : ℚ) * 5, 1/10) := rfl
  have hguard : ¬((1 : ℚ) * 5 ≤ 0) := by norm_num
  rw [if_neg hguard] at hstep
  have hu : usable 2 120 [⟨"A", "A.AX", "ASX", 1⟩] (fun _ => some (1/10))
      (fun _ => some (DF.flat [("Close", [(0, some 4), (100, some 5)])])) 1
      = [((1 : ℚ) * 5, 1/10)] := by
    rw [usable, List.filterMap_cons, hstep]
    rfl
  have h := (c2_weighted_average 2 120 [⟨"A", "A.AX", "ASX", 1⟩] (fun _ => some (1/10))
      (fun _ => some (DF.flat [("Close", [(0, some 4), (100, some 5)])])) 1).2.2.2
      (1/10) (by rw [hu]; simp) (by rw [hu]; simp)
  exact h

/-- C4: a window return is absent whenever the total series span falls below
the window's minimum or the reference close is missing or zero, and the three
standard windows are computed by independent calls with the thresholds
(1 month, 20 days), (6 months, 120 days), (12 months, 250 days). -/
theorem c4_window_guards (now : Int) (s0 : List SeriesPt) (months minDays : Nat) :
    (spanDays (sort_index s0) < (minDays : Int) →
      window_return_from_series now (some s0) months minDays = none) ∧
    (((sort_index s0).getD (refIndex (sort_index s0) (targetDate now months)) dummyPt).2 = none →
      window_return_from_series now (some s0) months minDays = none) ∧
    (((sort_index s0).getD (refIndex (sort_index s0) (targetDate now months)) dummyPt).2 = some 0 →
      window_return_from_series now (some s0) months minDays = none) ∧
    (∀ hist : Option DF,
      compute_individual_perf_from_hist now hist =
        (to_str (window_return_from_series now (get_close_series hist) 1 20),
         to_str (window_return_from_series now (get_close_series hist) 6 120),
         to_str (window_return_from_series now (get_close_series hist) 12 250),
         window_return_from_series now (get_close_series hist) 1 20,
         window_return_from_series now (get_close_series hist) 6 120,
         window_return_from_series now (get_close_series hist) 12 250)) := by
  refine ⟨fun hspan => ?_, fun hrefna => ?_, fun href0 => ?_, fun hist => rfl⟩
  · by_cases h0 : s0.isEmpty
    · simp only [window_return_from_series, if_pos h0]
    · rcases hlast : ((sort_index s0).getLastD dummyPt).2 with _ | last
      · simp only [window_return_from_series, if_neg h0, hlast]
      · rcases href : ((sort_index s0).getD
            (refIndex (sort_index s0) (targetDate now months)) dummyPt).2 with _ | ref
        · simp only [window_return_from_series, if_neg h0, hlast, href]
        · simp only [window_return_from_series, if_neg h0, hlast, href]
          rw [if_pos (Or.inl hspan)]
  · by_cases h0 : s0.isEmpty
    · simp only [window_return_from_series, if_pos h0]
    · rcases hlast : ((sort_index s0).getLastD dummyPt).2 with _ | last
      · simp only [window_return_from_series, if_neg h0, hlast]
      · simp only [window_return_from_series, if_neg h0, hlast, hrefna]
  · by_cases h0 : s0.isEmpty
    · simp only [window_return_from_series, if_pos h0]
    · rcases hlast : ((sort_index s0).getLastD dummyPt).2 with _ | last
      · simp only [window_return_from_series, if_neg h0, hlast]
      · simp only [window_return_from_series, if_neg h0, hlast, href0]
        simp

theorem c4_window_guards_witness :
    window_return_from_series 120 (some [(0, some 5), (10, some 6)]) 1 20 = none ∧
    window_return_from_series 120 (some [(100, none), (110, some 5)]) 1 0 = none ∧
    window_return_from_series 120 (some [(100, some 0), (110, some 5)]) 1 0 = none := by
  exact ⟨(c4_window_guards 120 [(0, some 5), (10, some 6)] 1 20).1 (by decide),
    (c4_window_guards 120 [(100, none), (110, some 5)] 1 0).2.1 rfl,
    (c4_window_guards 120 [(100, some 0), (110, some 5)] 1 0).2.2.1 rfl⟩

/-- C1: for a non-empty series with a valid last close, sufficient span, and
a valid nonzero reference close, the window return is `(last − ref) / ref`
where the reference index is `searchsorted` of `now − ⌊months·30.5⌋` days
clamped to the last element; that index is always in range, it is the first
index whose date reaches the target when one exists, and it is the last
index when every date falls short of the target. -/
theorem c1_window_return (now : Int) (s0 : List SeriesPt) (months minDays : Nat)
    (last ref : ℚ) (hne : s0 ≠ [])
    (hlast : ((sort_index s0).getLastD dummyPt).2 = some last)
    (hspan : (minDays : Int) ≤ spanDays (sort_index s0))
    (href : ((sort_index s0).getD (refIndex (sort_index s0) (targetDate now months)) dummyPt).2
      = some ref)
    (hrefnz : ref ≠ 0) :
    window_return_from_series now (some s0) months minDays = some ((last - ref) / ref) ∧
    refIndex (sort_index s0) (targetDate now months) < (sort_index s0).length ∧
    ((∃ p ∈ s0, targetDate now months ≤ p.1) →
      targetDate now months ≤
        ((sort_index s0).getD (refIndex (sort_index s0) (targetDate now months)) dummyPt).1 ∧
      ∀ j < refIndex (sort_index s0) (targetDate now months),
        ((sort_index s0).getD j dummyPt).1 < targetDate now months) ∧
    ((∀ p ∈ s0, p.1 < targetDate now months) →
      refIndex (sort_index s0) (targetDate now months) = (sort_index s0).length - 1) := by
  have h0 : ¬(s0.isEmpty = true) := by simpa [List.isEmpty_iff] using hne
  have hlenpos : 0 < (sort_index s0).length := by
    rw [length_sort_index]
    exact List.length_pos.mpr hne
  refine ⟨?_, ?_, fun hex => ?_, fun hall => ?_⟩
  · simp only [window_return_from_series, if_neg h0, hlast, href]
    rw [if_neg (not_or.mpr ⟨not_lt.mpr hspan, hrefnz⟩)]
  · rw [refIndex]
    split <;> omega
  · obtain ⟨p, hp, hple⟩ := hex
    have hss : searchsorted (sort_index s0) (targetDate now months) < (sort_index s0).length :=
      searchsorted_lt_length ⟨p, mem_sort_index.mpr hp, hple⟩
    have hri : refIndex (sort_index s0) (targetDate now months)
        = searchsorted (sort_index s0) (targetDate now months) := by
      rw [refIndex, if_neg (by omega)]
    constructor
    · rw [hri]
      exact le_getD_searchsorted _ _ (sorted_sort_index s0) hss
    · intro j hj
      rw [hri] at hj
      exact getD_lt_of_lt_searchsorted _ _ (sorted_sort_index s0) j hj
  · have hss : searchsorted (sort_index s0) (targetDate now months) = (sort_index s0).length :=
      searchsorted_eq_length (fun p hp => hall p (mem_sort_index.mp hp))
    rw [refIndex, hss, if_pos le_rfl]

theorem c1_window_return_witness :
    window_return_from_series 1000 (some [(700, some 100), (980, some 110), (999, some 121)]) 1 20
      = some (((121 : ℚ) - 110) / 110) ∧
    refIndex (sort_index [(700, some 100), (980, some 110), (999, some 121)]) (targetDate 1000 1)
      < (sort_index [((700 : Int), some (100 : ℚ)), (980, some 110), (999, some 121)]).length := by
  have h := c1_window_return 1000 [(700, some 100), (980, some 110), (999, some 121)] 1 20
    121 110 (by decide) rfl (by decide) rfl (by norm_num)
  exact ⟨h.1, h.2.1⟩

/-- C9: a stale series — non-empty, valid nonzero last close, span at least
the minimum, every date strictly before the target date — yields a window
return of exactly 0, not absent: the reference index clamps to the last
element, so the return compares the last close with itself. -/
theorem c9_stale_series_zero (now : Int) (s0 : List SeriesPt) (months minDays : Nat)
    (last : ℚ) (hne : s0 ≠ [])
    (hlast : ((sort_index s0).getLastD dummyPt).2 = some last)
    (hlnz : last ≠ 0)
    (hspan : (minDays : Int) ≤ spanDays (sort_index s0))
    (hstale : ∀ p ∈ s0, p.1 < targetDate now months) :
    window_return_from_series now (some s0) months minDays = some 0 := by
  have h0 : ¬(s0.isEmpty = true) := by simpa [List.isEmpty_iff] using hne
  have hsne : sort_index s0 ≠ [] := by
    intro h
    apply hne
    have hlen := length_sort_index s0
    rw [h] at hlen
    exact List.length_eq_zero.mp hlen.symm
  have hss : searchsorted (sort_index s0) (targetDate now months) = (sort_index s0).length :=
    searchsorted_eq_length (fun p hp => hstale p (mem_sort_index.mp hp))
  have hri : refIndex (sort_index s0) (targetDate now months) = (sort_index s0).length - 1 := by
    rw [refIndex, hss, if_pos le_rfl]
  have href : ((sort_index s0).getD
      (refIndex (sort_index s0) (targetDate now months)) dummyPt).2 = some last := by
    rw [hri, getD_length_sub_one _ hsne, hlast]
  simp only [window_return_from_series, if_neg h0, hlast, href]
  rw [if_neg (not_or.mpr ⟨not_lt.mpr hspan, hlnz⟩), sub_self, zero_div]

theorem c9_stale_series_zero_witness :
    window_return_from_series 120 (some [(0, some 5), (10, some 7)]) 1 10 = some 0 :=
  c9_stale_series_zero 120 [(0, some 5), (10, some 7)] 1 10 7
    (by decide) rfl (by norm_num) (by decide) (by decide)

/-- Whatever the single-level loop returns is a non-empty series with every
close present. -/
theorem flatLoop_sound (cols : List (String × List SeriesPt)) :
    ∀ labels l, flatLoop cols labels = some l → l ≠ [] ∧ ∀ p ∈ l, p.2.isSome := by
  intro labels
  induction labels with
  | nil => intro l h; simp [flatLoop] at h
  | cons lab rest ih =>
    intro l h
    simp only [flatLoop] at h
    rcases hc : lookupCol cols lab with _ | vals <;> simp only [hc] at h
    · exact ih l h
    · by_cases he : (vals.filter (fun p => p.2.isSome)).isEmpty
      · rw [if_pos he] at h
        exact Option.noConfusion h
      · rw [if_neg he] at h
        cases h
        refine ⟨by simpa [List.isEmpty_iff] using he, fun p hp => ?_⟩
        exact (List.mem_filter.mp hp).2

/-- Whatever the MultiIndex loop returns is a non-empty series with every
close present. -/
theorem nestedLoop_sound (fields : List (String × List (Int × List (Option ℚ)))) :
    ∀ labels l, nestedLoop fields labels = some l → l ≠ [] ∧ ∀ p ∈ l, p.2.isSome := by
  intro labels
  induction labels with
  | nil => intro l h; simp [nestedLoop] at h
  | cons lab rest ih =>
    intro l h
    simp only [nestedLoop] at h
    rcases hc : lookupCol fields lab with _ | rows <;> simp only [hc] at h
    · exact ih l h
    · by_cases hd : (rows.filter rowAllSome).isEmpty
      · rw [if_pos hd] at h
        exact ih l h
      · rw [if_neg hd] at h
        by_cases he : (((rows.filter rowAllSome).map
            (fun row => (row.1, row.2.headD none))).filter (fun p => p.2.isSome)).isEmpty
        · rw [if_pos he] at h
          exact Option.noConfusion h
        · rw [if_neg he] at h
          cases h
          refine ⟨by simpa [List.isEmpty_iff] using he, fun p hp => ?_⟩
          exact (List.mem_filter.mp hp).2

/-- C6: close-price extraction is total over both supported layouts: it never
yields an empty series or a missing close (rows with missing closes are
dropped, an empty result is reported as `none` rather than an error), and in
each layout a present `Close` field is preferred and decides the result. -/
theorem c6_close_extraction (hist : Option DF) :
    (∀ l, get_close_series hist = some l → l ≠ [] ∧ ∀ p ∈ l, p.2.isSome) ∧
    (∀ cols vals, hist = some (DF.flat cols) → (DF.flat cols).isEmptyDF = false →
      lookupCol cols "Close" = some vals →
      get_close_series hist =
        (if (vals.filter (fun p => p.2.isSome)).isEmpty then none
         else some (vals.filter (fun p => p.2.isSome)))) ∧
    (∀ fields rows, hist = some (DF.nested fields) → (DF.nested fields).isEmptyDF = false →
      lookupCol fields "Close" = some rows → rows.filter rowAllSome ≠ [] →
      get_close_series hist =
        (if (((rows.filter rowAllSome).map (fun row => (row.1, row.2.headD none))).filter
            (fun p => p.2.isSome)).isEmpty then none
         else some (((rows.filter rowAllSome).map (fun row => (row.1, row.2.headD none))).filter
            (fun p => p.2.isSome)))) := by
  refine ⟨fun l h => ?_, fun cols vals hh hemp hlook => ?_,
    fun fields rows hh hemp hlook hdf => ?_⟩
  · rcases hist with _ | hist
    · simp [get_close_series] at h
    · simp only [get_close_series] at h
      by_cases he : hist.isEmptyDF
      · rw [if_pos he] at h
        exact Option.noConfusion h
      · rw [if_neg he] at h
        cases hist with
        | flat cols => exact flatLoop_sound cols closeLabels l h
        | nested fields => exact nestedLoop_sound fields closeLabels l h
  · subst hh
    simp only [get_close_series]
    rw [if_neg (by simp [hemp])]
    simp only [closeLabels, flatLoop, hlook]
  · subst hh
    simp only [get_close_series]
    rw [if_neg (by simp [hemp])]
    simp only [closeLabels, nestedLoop, hlook]
    rw [if_neg (fun hcond => hdf (List.isEmpty_iff.mp hcond))]

theorem c6_close_extraction_witness :
    get_close_series (some (DF.flat [("Close", [(0, some 1), (1, none), (2, some 3)])]))
      = some [(0, some 1), (2, some 3)] ∧
    get_close_series (some (DF.nested [("Close", [(0, [some 2, none]), (1, [some 3, some 4])])]))
      = some [(1, some 3)] ∧
    ([((0 : Int), some (1 : ℚ)), (2, some 3)] ≠ [] ∧
      ∀ p ∈ [((0 : Int), some (1 : ℚ)), (2, some 3)], p.2.isSome) := by
  have hf := (c6_close_extraction
      (some (DF.flat [("Close", [(0, some 1), (1, none), (2, some 3)])]))).2.1
    [("Close", [(0, some 1), (1, none), (2, some 3)])]
    [(0, some 1), (1, none), (2, some 3)] rfl rfl rfl
  have hn := (c6_close_extraction
      (some (DF.nested [("Close", [(0, [some 2, none]), (1, [some 3, some 4])])]))).2.2
    [("Close", [(0, [some 2, none]), (1, [some 3, some 4])])]
    [(0, [some 2, none]), (1, [some 3, some 4])] rfl rfl rfl (by decide)
  have hval : get_close_series
      (some (DF.flat [("Close", [(0, some 1), (1, none), (2, some 3)])]))
      = some [(0, some 1), (2, some 3)] := by rw [hf]; rfl
  refine ⟨hval, by rw [hn]; rfl, ?_⟩
  exact (c6_close_extraction
    (some (DF.flat [("Close", [(0, some 1), (1, none), (2, some 3)])]))).1
    [(0, some 1), (2, some 3)] hval

end Portfolio
